import Mathlib

/-!
# SD card bring-up and pattern self-test (`main/sd_card.cpp`, `main/main.cpp`)

A shallow embedding of the `SD_Card` namespace and of `app_main`.

* `char` values are natural numbers below 256 (`'a'` is 97, `'z'` is 122).
* `size_t` is the 32-bit unsigned type of the ESP32 target and `int` is the
  32-bit two's-complement type; the loop counters wrap modulo `2^32`.
* The ESP-IDF primitives are external: each returns the status recorded for
  it in the hardware state and is appended to the log of invoked primitives.
* The C library file primitives act on a map from path to file content; which
  opens, writes and closes succeed is given by an explicit table of outcomes.
* Loops whose termination depends on the machine counter carry a fuel
  argument and return `none` when the fuel is exhausted.
-/

namespace SD_Card

/-! ## Machine integers -/

/-- Number of values of the 32-bit `size_t`. -/
def SIZE_MOD : Nat := 4294967296

/-- The increment `i++` of a `size_t` counter. -/
def size_succ (i : Nat) : Nat := (i + 1) % SIZE_MOD

/-- The conversion `static_cast<int>(x)` of a `size_t` value to the 32-bit `int`. -/
def to_int (x : Nat) : Int :=
  if x % SIZE_MOD < 2147483648 then ((x % SIZE_MOD : Nat) : Int)
  else ((x % SIZE_MOD : Nat) : Int) - 4294967296

/-- The status `ESP_OK`. -/
def ESP_OK : Int := 0

/-! ## The pattern buffer of `create_test_file` -/

/-- The body of the generator lambda of `create_test_file`: it advances the
captured character (wrapping from `'z'` to `'a'`) and returns the new value. -/
def gen_next (c : Nat) : Nat :=
  if c = 122 then 97 else (c + 1) % 256

/-- The call `std::generate(first, last, g)` over `n` slots, with the lambda
currently holding `c`. -/
def generate : Nat → Nat → List Nat
  | 0, _ => []
  | n + 1, c => gen_next c :: generate n (gen_next c)

/-- The buffer `buf` of `create_test_file`: 512 slots, the lambda captures `'z'`. -/
def buf : List Nat := generate 512 122

/-! ## The ESP-IDF primitives -/

/-- The external primitives invoked by `init`, `deinit` and `format`, and the
100 ms `sleep_for` of `deinit`. -/
inductive Prim
  | spi_bus_initialize
  | sdspi_host_init
  | sdspi_host_init_device
  | sdmmc_card_init
  | sdmmc_card_print_info
  | esp_vfs_littlefs_register
  | esp_littlefs_format_sdmmc
  | esp_vfs_littlefs_unregister_sdmmc
  | sdspi_host_remove_device
  | sdspi_host_deinit
  | spi_bus_free
  | sleep_for_100ms
  deriving DecidableEq, Repr

/-- The hardware side of the world: the status every primitive returns when
it is invoked, and the primitives invoked so far, oldest first. -/
structure Hw where
  status : Prim → Int
  log : List Prim

/-- The wrapper `Trielo::trielo<p>(...)`: invoke the primitive, hand back its status. -/
def trielo (p : Prim) (hw : Hw) : Int × Hw :=
  (hw.status p, { hw with log := hw.log ++ [p] })

/-- The function `SD_Card::init`. -/
def init (hw : Hw) : Int × Hw :=
  let r1 := trielo Prim.spi_bus_initialize hw
  if r1.1 ≠ 0 then (-1, r1.2) else
  let r2 := trielo Prim.sdspi_host_init r1.2
  if r2.1 ≠ ESP_OK then (-2, r2.2) else
  let r3 := trielo Prim.sdspi_host_init_device r2.2
  if r3.1 ≠ ESP_OK then (-3, r3.2) else
  let r4 := trielo Prim.sdmmc_card_init r3.2
  if r4.1 ≠ ESP_OK then (-4, r4.2) else
  let r4p := trielo Prim.sdmmc_card_print_info r4.2
  let r5 := trielo Prim.esp_vfs_littlefs_register r4p.2
  if r5.1 ≠ ESP_OK then (-5, r5.2) else
  (0, r5.2)

/-- The function `SD_Card::deinit`. -/
def deinit (hw : Hw) : Int × Hw :=
  let r1 := trielo Prim.esp_vfs_littlefs_unregister_sdmmc hw
  if r1.1 ≠ ESP_OK then r1 else
  let s1 := trielo Prim.sleep_for_100ms r1.2
  let r2 := trielo Prim.sdspi_host_remove_device s1.2
  if r2.1 ≠ ESP_OK then r2 else
  let s2 := trielo Prim.sleep_for_100ms r2.2
  let r3 := trielo Prim.sdspi_host_deinit s2.2
  if r3.1 ≠ ESP_OK then r3 else
  let s3 := trielo Prim.sleep_for_100ms r3.2
  trielo Prim.spi_bus_free s3.2

/-- The function `SD_Card::format`. -/
def format (hw : Hw) : Int × Hw :=
  trielo Prim.esp_littlefs_format_sdmmc hw

/-! ## The file primitives -/

/-- One invocation of a C library file primitive. -/
inductive FsOp
  | fopen (path : String) (mode : String) (ok : Bool)
  | fwrite (path : String) (count : Nat)
  | fgetc (path : String)
  | fclose (path : String)
  deriving DecidableEq, Repr

/-- The file system: the content of every existing file, and the file
primitives invoked so far, oldest first. -/
structure Fs where
  files : String → Option (List Nat)
  log : List FsOp

/-- Outcomes of the fallible file primitives during one call: whether the
`"w"` open succeeds, whether the `n`-th `"a"` open succeeds, how many bytes
the `n`-th `fwrite` gets written, whether the `"r"` open succeeds and whether
the `fclose` of `check_test_file` returns 0. The `fclose` after the `"w"` open
and the one of the `n`-th append have an outcome too, `close_w` and `close_a n`. -/
structure Faults where
  open_w : Bool
  close_w : Bool
  open_a : Nat → Bool
  written : Nat → Nat
  close_a : Nat → Bool
  open_r : Bool
  close_r : Bool

/-- Every open, write and close succeeds. -/
def no_faults : Faults :=
  ⟨true, true, fun _ => true, fun _ => 512, fun _ => true, true, true⟩

/-- Append an entry to the log of file primitives. -/
def Fs.record (fs : Fs) (e : FsOp) : Fs :=
  { fs with log := fs.log ++ [e] }

/-- Content of the file at `path`, empty when there is no such file. -/
def Fs.content (fs : Fs) (path : String) : List Nat :=
  (fs.files path).getD []

/-- Set the content of the file at `path`. -/
def Fs.store (fs : Fs) (path : String) (c : List Nat) : Fs :=
  { fs with files := fun p => if p = path then some c else fs.files p }

/-- The string `mount_point`. -/
def mount_point : String := "/sdcard"

/-- The path `std::filesystem::path(mount_point).append(name)`: an absolute
`name` replaces the mount point, any other is joined to it by a separator. -/
def test_megabyte (name : String) : String :=
  if name.front = '/' then name else mount_point ++ "/" ++ name

/-- The call `fopen(path, "w")`: create or truncate. -/
def fopen_w (ok : Bool) (path : String) (fs : Fs) : Bool × Fs :=
  if ok then (true, (fs.store path []).record (FsOp.fopen path "w" true))
  else (false, fs.record (FsOp.fopen path "w" false))

/-- The call `fopen(path, "a")`: create if missing, position at the end. -/
def fopen_a (ok : Bool) (path : String) (fs : Fs) : Bool × Fs :=
  if ok then (true, (fs.store path (fs.content path)).record (FsOp.fopen path "a" true))
  else (false, fs.record (FsOp.fopen path "a" false))

/-- The call `fopen(path, "r")`: fails when the file does not exist; on
success the stream reads the content the file has now. -/
def fopen_r (ok : Bool) (path : String) (fs : Fs) : Option (List Nat) × Fs :=
  match fs.files path with
  | some c =>
    if ok then (some c, fs.record (FsOp.fopen path "r" true))
    else (none, fs.record (FsOp.fopen path "r" false))
  | none => (none, fs.record (FsOp.fopen path "r" false))

/-- The call `fwrite(data, 1, data.size(), file)` on a stream opened for
appending, of which `accepted` bytes at most get written: returns the number
of bytes written. -/
def fwrite (data : List Nat) (accepted : Nat) (path : String) (fs : Fs) : Nat × Fs :=
  let n := min accepted data.length
  (n, (fs.store path (fs.content path ++ data.take n)).record (FsOp.fwrite path n))

/-- The call `fclose(file)`: returns whether it succeeded (returned 0). -/
def fclose (ok : Bool) (path : String) (fs : Fs) : Bool × Fs :=
  (ok, fs.record (FsOp.fclose path))

/-- The value of `fgetc(file)` at read position `pos`: the byte, or `EOF` (-1). -/
def fgetc (content : List Nat) (pos : Nat) : Int :=
  match content[pos]? with
  | some b => (b : Int)
  | none => -1

/-! ## `create_test_file` -/

/-- The `for` loop of `create_test_file`, at counter `i`, before the `n`-th
append (counted from 0). -/
def append_loop (flt : Faults) (num_of_sectors : Nat) (path : String) :
    Nat → Nat → Nat → Fs → Option (Int × Fs)
  | 0, _, _, _ => none
  | fuel + 1, i, n, fs =>
    if i ≤ num_of_sectors then
      let o := fopen_a (flt.open_a n) path fs
      if o.1 = false then some (-2, o.2) else
      let w := fwrite buf (flt.written n) path o.2
      if w.1 ≠ buf.length then some (-3, w.2) else
      append_loop flt num_of_sectors path fuel (size_succ i) (n + 1)
        (fclose (flt.close_a n) path w.2).2
    else some (0, fs)

/-- The function `SD_Card::create_test_file`. -/
def create_test_file (fuel : Nat) (flt : Faults) (num_of_sectors : Nat) (name : String)
    (fs : Fs) : Option (Int × Fs) :=
  let path := test_megabyte name
  let o := fopen_w flt.open_w path fs
  if o.1 = false then some (-1, o.2) else
  append_loop flt num_of_sectors path fuel 1 0 (fclose flt.close_w path o.2).2

/-! ## `check_test_file` -/

/-- The update of `c` in the increment of the `for` loop of `check_test_file`. -/
def check_next (c : Nat) : Nat :=
  if c = 122 then 97 else (c + 1) % 256

/-- The `for` loop of `check_test_file` and the code after it, at counter
`i`, expected character `c` and read position `pos` of the stream. -/
def check_loop (close_ok : Bool) (size_bytes : Nat) (path : String) (content : List Nat) :
    Nat → Nat → Nat → Nat → Fs → Option (Int × Fs)
  | 0, _, _, _, _ => none
  | fuel + 1, i, c, pos, fs =>
    if i ≤ size_bytes then
      let fs1 := fs.record (FsOp.fgetc path)
      if fgetc content pos ≠ (c : Int) then
        some (to_int ((i + 1) % SIZE_MOD), (fclose close_ok path fs1).2)
      else
        check_loop close_ok size_bytes path content fuel (size_succ i) (check_next c)
          (pos + 1) fs1
    else
      let r := fclose close_ok path fs
      if r.1 = false then some (-2, r.2) else some (0, r.2)

/-- The function `SD_Card::check_test_file`. -/
def check_test_file (fuel : Nat) (flt : Faults) (size_bytes : Nat) (name : String)
    (fs : Fs) : Option (Int × Fs) :=
  let path := test_megabyte name
  let o := fopen_r flt.open_r path fs
  match o.1 with
  | none => some (-1, o.2)
  | some content => check_loop flt.close_r size_bytes path content fuel 1 97 0 o.2

/-! ## `app_main` -/

/-- One call made by `app_main`, with its arguments and the value it returned. -/
inductive Call
  | init (ret : Int)
  | format (ret : Int)
  | create_test_file (num_of_sectors : Nat) (name : String) (ret : Int)
  | check_test_file (size_bytes : Nat) (name : String) (ret : Int)
  | deinit (ret : Int)
  deriving DecidableEq, Repr

/-- The operations of namespace `SD_Card` as `app_main` sees them: each acts
on a state and returns a value. -/
structure Ops (σ : Type) where
  init : σ → Int × σ
  format : σ → Int × σ
  create_test_file : Nat → String → σ → Int × σ
  check_test_file : Nat → String → σ → Int × σ
  deinit : σ → Int × σ

/-- The nest of `for` loops of `app_main` from counter `i` on, with `remaining`
iterations of the outer loop left; the inner loop on `y` runs its body once.
It ends at the label `failure`, reached by falling out of the loop or by a
`goto`. Returns the calls made. -/
def test_loop {σ : Type} (ops : Ops σ) : Nat → Nat → σ → List Call × σ
  | 0, _, s => ([], s)
  | remaining + 1, i, s =>
    let name := "test" ++ toString i
    let r1 := ops.create_test_file 1 name s
    if r1.1 ≠ 0 then ([Call.create_test_file 1 name r1.1], r1.2) else
    let r2 := ops.check_test_file (512 * 1) name r1.2
    if r2.1 ≠ 0 then
      ([Call.create_test_file 1 name r1.1, Call.check_test_file (512 * 1) name r2.1], r2.2)
    else
      let rest := test_loop ops remaining (i + 1) r2.2
      (Call.create_test_file 1 name r1.1 :: Call.check_test_file (512 * 1) name r2.1 :: rest.1,
        rest.2)

/-- The function `app_main`: returns the calls it made, in order. -/
def app_main {σ : Type} (ops : Ops σ) (s : σ) : List Call × σ :=
  let r0 := ops.init s
  let r1 := ops.format r0.2
  let body := test_loop ops 200 0 r1.2
  let r2 := ops.deinit body.2
  (Call.init r0.1 :: Call.format r1.1 :: (body.1 ++ [Call.deinit r2.1]), r2.2)

/-- The whole world: hardware and file system. -/
structure World where
  hw : Hw
  fs : Fs

/-- The operations of namespace `SD_Card` on the world, with the outcomes of
the file primitives given per file name. A call of `create_test_file` with
`n` sectors gets fuel `n + 1` and one of `check_test_file` with `n` bytes gets
fuel `n + 1`, which is enough for every `n` below `SIZE_MOD - 1`; a call that
would not return leaves the world as it is and yields -128. -/
def sd_card_ops (flt : String → Faults) : Ops World where
  init := fun w => ((init w.hw).1, { w with hw := (init w.hw).2 })
  format := fun w => ((format w.hw).1, { w with hw := (format w.hw).2 })
  create_test_file := fun n name w =>
    match create_test_file (n + 1) (flt name) n name w.fs with
    | some r => (r.1, { w with fs := r.2 })
    | none => (-128, w)
  check_test_file := fun n name w =>
    match check_test_file (n + 1) (flt name) n name w.fs with
    | some r => (r.1, { w with fs := r.2 })
    | none => (-128, w)
  deinit := fun w => ((deinit w.hw).1, { w with hw := (deinit w.hw).2 })

/-! ## Vocabulary of the specification -/

/-- The five bring-up steps, in order: bus initialize, host init, attach
device, card init, mount. -/
def bringup_steps : List Prim :=
  [Prim.spi_bus_initialize, Prim.sdspi_host_init, Prim.sdspi_host_init_device,
    Prim.sdmmc_card_init, Prim.esp_vfs_littlefs_register]

/-- The four teardown steps, in order: unmount, detach device, host deinit,
bus free. -/
def teardown_steps : List Prim :=
  [Prim.esp_vfs_littlefs_unregister_sdmmc, Prim.sdspi_host_remove_device,
    Prim.sdspi_host_deinit, Prim.spi_bus_free]

/-- The primitives of `calls` that belong to `steps`, in the order invoked. -/
def invoked (steps calls : List Prim) : List Prim :=
  calls.filter (fun p => decide (p ∈ steps))

/-- The file name of iteration `i` of the test driver. -/
def test_name (i : Nat) : String := "test" ++ toString i

/-- The calls of `m` successive iterations starting with iteration `i`, in
each of which write and verify both return 0. -/
def ok_pairs : Nat → Nat → List Call
  | 0, _ => []
  | m + 1, i =>
    Call.create_test_file 1 (test_name i) 0 :: Call.check_test_file 512 (test_name i) 0 ::
      ok_pairs m (i + 1)

/-- The `n`-th append passes the checks of `create_test_file`: its open
succeeds and its write count is 512. -/
def append_passes (flt : Faults) (n : Nat) : Prop :=
  flt.open_a n = true ∧ min (flt.written n) buf.length = 512

/-- The `n`-th append fully succeeds: its open succeeds, its write count is
512 and its close succeeds. -/
def append_ok (flt : Faults) (n : Nat) : Prop :=
  append_passes flt n ∧ flt.close_a n = true

/-- The file system after one append that fully succeeds: open for append,
write of the whole buffer, close. -/
def append_sector (path : String) (fs : Fs) : Fs :=
  (fclose true path (fwrite buf 512 path (fopen_a true path fs).2).2).2

/-- The file system after `m` appends that fully succeed. -/
def appended (path : String) : Nat → Fs → Fs
  | 0, fs => fs
  | m + 1, fs => appended path m (append_sector path fs)

/-- The pattern buffer repeated `k` times. -/
def sectors : Nat → List Nat
  | 0 => []
  | k + 1 => buf ++ sectors k

/-- The log entries of `m` appends that fully succeed. -/
def append_ops (path : String) : Nat → List FsOp
  | 0 => []
  | m + 1 =>
    FsOp.fopen path "a" true :: FsOp.fwrite path 512 :: FsOp.fclose path :: append_ops path m

/-- The log entries of `m` successive reads of one byte. -/
def read_ops (path : String) (m : Nat) : List FsOp :=
  List.replicate m (FsOp.fgetc path)

/-- The file system holding the single file `path` with content `c`. -/
def fs_with (path : String) (c : List Nat) : Fs := ⟨fun p => if p = path then some c else none, []⟩

/-- The byte read at index `j` (end of file included) is not the one the
verifier expects there, `'a' + (j mod 26)`. -/
def mismatch (content : List Nat) (j : Nat) : Prop :=
  content[j]? ≠ some (97 + j % 26)

/-- The file of `n` bytes that continues the 26-letter cycle over its whole
length. -/
def cycle_file (n : Nat) : List Nat :=
  (List.range n).map (fun j => 97 + j % 26)

/-! ## Concrete worlds -/

/-- A file system without files. -/
def fs_empty : Fs := ⟨fun _ => none, []⟩

/-- Hardware on which every primitive returns `ESP_OK`. -/
def hw_ok : Hw := ⟨fun _ => 0, []⟩

/-- Hardware on which primitive `p` returns status `e` and every other
primitive returns `ESP_OK`. -/
def hw_failing (p : Prim) (e : Int) : Hw := ⟨fun q => if q = p then e else 0, []⟩

/-- No open succeeds and nothing gets written, as on a file system that is
not mounted. -/
def all_faults : Faults := ⟨false, false, fun _ => false, fun _ => 0, fun _ => false, false, false⟩

/-- The second open for append fails; everything else succeeds. -/
def second_append_fails : Faults :=
  ⟨true, true, fun n => decide (n ≠ 1), fun _ => 512, fun _ => true, true, true⟩

/-- Every open and write succeeds and every `fclose` of an append fails. -/
def close_fails : Faults :=
  ⟨true, true, fun _ => true, fun _ => 512, fun _ => false, true, true⟩

/-- Operations on a trivial state that all return 0. -/
def ops_ok : Ops Unit :=
  ⟨fun _ => (0, ()), fun _ => (0, ()), fun _ _ _ => (0, ()), fun _ _ _ => (0, ()),
    fun _ => (0, ())⟩

/-! ## Lemmas on the pattern -/

theorem gen_next_cycle (p : Nat) : gen_next (97 + p % 26) = 97 + (p + 1) % 26 := by
  unfold gen_next
  have h := Nat.mod_lt p (show 26 > 0 by decide)
  by_cases hz : p % 26 = 25
  · have : (p + 1) % 26 = 0 := by omega
    simp [hz, this]
  · have h1 : (p + 1) % 26 = p % 26 + 1 := by omega
    have h2 : ¬ (97 + p % 26 = 122) := by omega
    rw [if_neg h2, h1]
    omega

theorem generate_length (n c : Nat) : (generate n c).length = n := by
  induction n generalizing c with
  | zero => rfl
  | succ n ih => simp [generate, ih]

theorem generate_getElem? (n p o : Nat) (h : o < n) :
    (generate n (97 + p % 26))[o]? = some (97 + (p + 1 + o) % 26) := by
  induction n generalizing p o with
  | zero => omega
  | succ n ih =>
    cases o with
    | zero => simp [generate, gen_next_cycle]
    | succ o =>
      simp only [generate, gen_next_cycle, List.getElem?_cons_succ]
      rw [ih (p + 1) o (by omega)]
      congr 3
      omega

theorem buf_length : buf.length = 512 := generate_length 512 122

theorem buf_getElem? (o : Nat) (h : o < 512) : buf[o]? = some (97 + o % 26) := by
  have := generate_getElem? 512 25 o h
  have e : (25 + 1 + o) % 26 = o % 26 := by omega
  rw [e] at this
  exact this

/-- C1: for every offset `o < 512`, byte `o` of the buffer built by
`create_test_file` is `'a' + (o mod 26)`; hence every byte of the buffer is a
lowercase letter `'a'..'z'` (97..122), the buffer has 512 bytes and it starts
with `'a'`. -/
theorem buf_pattern :
    buf.length = 512 ∧
    (∀ o, o < 512 → buf[o]? = some (97 + o % 26)) ∧
    (∀ b, b ∈ buf → 97 ≤ b ∧ b ≤ 122) ∧
    buf[0]? = some 97 := by
  refine ⟨buf_length, buf_getElem?, ?_, buf_getElem? 0 (by decide)⟩
  intro b hb
  obtain ⟨o, ho, hob⟩ := List.getElem_of_mem hb
  have ho2 : o < 512 := by rw [buf_length] at ho; exact ho
  have h1 := buf_getElem? o ho2
  rw [List.getElem?_eq_getElem ho, hob] at h1
  have : b = 97 + o % 26 := by simpa using h1
  omega

/-! ## Bring-up and teardown -/

/-- C4: with the five bring-up steps in the order bus initialize, host init,
attach device, card init, mount: if the steps before step `k + 1` return OK
and step `k + 1` returns a status that is not OK, `init` returns `-(k + 1)`
and the bring-up steps it invoked are exactly the first `k + 1`, in order (no
later step is invoked); if all five return OK, `init` returns 0 having invoked
all five in order. -/
theorem init_short_circuit (hw : Hw) :
    (∀ (k : Nat) (p : Prim), k < 5 →
      (∀ (j : Nat) (q : Prim), j < k → bringup_steps[j]? = some q → hw.status q = ESP_OK) →
      bringup_steps[k]? = some p → hw.status p ≠ ESP_OK →
      (init hw).1 = -((k : Int) + 1) ∧
      ∃ calls, (init hw).2.log = hw.log ++ calls ∧
        invoked bringup_steps calls = bringup_steps.take (k + 1)) ∧
    ((∀ q, q ∈ bringup_steps → hw.status q = ESP_OK) →
      (init hw).1 = 0 ∧
      ∃ calls, (init hw).2.log = hw.log ++ calls ∧
        invoked bringup_steps calls = bringup_steps) := by
  constructor
  · intro k p hk hprev hp hbad
    have h0 := hprev 0 Prim.spi_bus_initialize
    have h1 := hprev 1 Prim.sdspi_host_init
    have h2 := hprev 2 Prim.sdspi_host_init_device
    have h3 := hprev 3 Prim.sdmmc_card_init
    interval_cases k <;>
      simp [bringup_steps] at hp h0 h1 h2 h3 <;>
      subst hp <;>
      simp [init, trielo, ESP_OK, invoked, bringup_steps] at * <;>
      simp [*]
  · intro hall
    have h0 := hall Prim.spi_bus_initialize (by simp [bringup_steps])
    have h1 := hall Prim.sdspi_host_init (by simp [bringup_steps])
    have h2 := hall Prim.sdspi_host_init_device (by simp [bringup_steps])
    have h3 := hall Prim.sdmmc_card_init (by simp [bringup_steps])
    have h4 := hall Prim.esp_vfs_littlefs_register (by simp [bringup_steps])
    simp [init, trielo, ESP_OK, invoked, bringup_steps] at *
    simp [*]

/-- C5: `deinit` invokes unmount, detach device, host deinit, bus free in that
order; if the steps before step `k + 1` return OK and step `k + 1` does not,
`deinit` returns the status of step `k + 1` and the teardown steps it invoked
are exactly the first `k + 1` (no later step is invoked); if all four return
OK all four are invoked in order; and `deinit` returns OK if and only if all
four steps return OK. -/
theorem deinit_fail_fast (hw : Hw) :
    (∀ (k : Nat) (p : Prim), k < 4 →
      (∀ (j : Nat) (q : Prim), j < k → teardown_steps[j]? = some q → hw.status q = ESP_OK) →
      teardown_steps[k]? = some p → hw.status p ≠ ESP_OK →
      (deinit hw).1 = hw.status p ∧
      ∃ calls, (deinit hw).2.log = hw.log ++ calls ∧
        invoked teardown_steps calls = teardown_steps.take (k + 1)) ∧
    ((∀ q, q ∈ teardown_steps → hw.status q = ESP_OK) →
      ∃ calls, (deinit hw).2.log = hw.log ++ calls ∧
        invoked teardown_steps calls = teardown_steps) ∧
    ((deinit hw).1 = ESP_OK ↔ ∀ q, q ∈ teardown_steps → hw.status q = ESP_OK) := by
  refine ⟨?_, ?_, ?_⟩
  · intro k p hk hprev hp hbad
    have h0 := hprev 0 Prim.esp_vfs_littlefs_unregister_sdmmc
    have h1 := hprev 1 Prim.sdspi_host_remove_device
    have h2 := hprev 2 Prim.sdspi_host_deinit
    interval_cases k <;>
      simp [teardown_steps] at hp h0 h1 h2 <;>
      subst hp <;>
      simp [deinit, trielo, ESP_OK, invoked, teardown_steps] at * <;>
      simp [*]
  · intro hall
    have h0 := hall Prim.esp_vfs_littlefs_unregister_sdmmc (by simp [teardown_steps])
    have h1 := hall Prim.sdspi_host_remove_device (by simp [teardown_steps])
    have h2 := hall Prim.sdspi_host_deinit (by simp [teardown_steps])
    have h3 := hall Prim.spi_bus_free (by simp [teardown_steps])
    simp [deinit, trielo, ESP_OK, invoked, teardown_steps] at *
    simp [*]
  · simp only [deinit, trielo, ESP_OK, teardown_steps, List.mem_cons, List.mem_singleton,
      forall_eq_or_imp, forall_eq, List.not_mem_nil, false_implies, implies_true, and_true]
    by_cases h0 : hw.status Prim.esp_vfs_littlefs_unregister_sdmmc = 0 <;>
    by_cases h1 : hw.status Prim.sdspi_host_remove_device = 0 <;>
    by_cases h2 : hw.status Prim.sdspi_host_deinit = 0 <;>
    simp [h0, h1, h2]

/-! ## The test driver -/

theorem test_loop_trace {σ : Type} (ops : Ops σ) (remaining i : Nat) (s : σ) :
    ∃ (m : Nat) (tail : List Call),
      (test_loop ops remaining i s).1 = ok_pairs m i ++ tail ∧ m ≤ remaining ∧
      ((tail = [] ∧ m = remaining) ∨
       (m < remaining ∧ ∃ r : Int, r ≠ 0 ∧
          tail = [Call.create_test_file 1 (test_name (i + m)) r]) ∨
       (m < remaining ∧ ∃ r : Int, r ≠ 0 ∧
          tail = [Call.create_test_file 1 (test_name (i + m)) 0,
                  Call.check_test_file 512 (test_name (i + m)) r])) := by
  induction remaining generalizing i s with
  | zero => exact ⟨0, [], by simp [test_loop, ok_pairs]⟩
  | succ n ih =>
    by_cases h1 : (ops.create_test_file 1 (test_name i) s).1 = 0
    · by_cases h2 : (ops.check_test_file 512 (test_name i)
          (ops.create_test_file 1 (test_name i) s).2).1 = 0
      · obtain ⟨m, tail, hm, hle, hc⟩ :=
          ih (i + 1) (ops.check_test_file 512 (test_name i)
            (ops.create_test_file 1 (test_name i) s).2).2
        refine ⟨m + 1, tail, ?_, by omega, ?_⟩
        · simp only [test_name] at h1 h2 hm
          simp [test_loop, ok_pairs, test_name, h1, h2, hm]
        · have e : i + (m + 1) = i + 1 + m := by omega
          rw [e]
          rcases hc with ⟨ht, hmn⟩ | ⟨hlt, hr⟩ | ⟨hlt, hr⟩
          · exact Or.inl ⟨ht, by omega⟩
          · exact Or.inr (Or.inl ⟨by omega, hr⟩)
          · exact Or.inr (Or.inr ⟨by omega, hr⟩)
      · refine ⟨0, _, ?_, by omega, Or.inr (Or.inr ⟨by omega, _, h2, rfl⟩)⟩
        simp only [test_name] at h1 h2
        simp [test_loop, ok_pairs, test_name, h1, h2]
    · refine ⟨0, _, ?_, by omega, Or.inr (Or.inl ⟨by omega, _, h1, rfl⟩)⟩
      simp only [test_name] at h1
      simp [test_loop, ok_pairs, test_name, h1]

theorem test_loop_all_ok {σ : Type} (ops : Ops σ)
    (hc : ∀ n name s, (ops.create_test_file n name s).1 = 0)
    (hv : ∀ n name s, (ops.check_test_file n name s).1 = 0) (remaining i : Nat) (s : σ) :
    (test_loop ops remaining i s).1 = ok_pairs remaining i := by
  induction remaining generalizing i s with
  | zero => simp [test_loop, ok_pairs]
  | succ n ih => simp [test_loop, ok_pairs, test_name, hc, hv, ih]

/-- C6: for every behaviour of the `SD_Card` operations, the calls made by
`app_main` are `init`, then `format`, then for `i = 0, 1, ...` the pair
`create_test_file(1, "test" + i)`, `check_test_file(512, "test" + i)`, ending
right after the first of these calls that returns non-zero or after
`i = 199`, then `deinit` once as the last call; when every write and verify
returns 0, exactly 200 pairs run, for `test0` .. `test199` in order. -/
theorem app_main_trace {σ : Type} (ops : Ops σ) (s : σ) :
    (∃ (m : Nat) (tail : List Call) (r2 : Int),
      (app_main ops s).1 =
        Call.init (ops.init s).1 :: Call.format (ops.format (ops.init s).2).1 ::
          (ok_pairs m 0 ++ tail ++ [Call.deinit r2]) ∧
      m ≤ 200 ∧
      ((tail = [] ∧ m = 200) ∨
       (m < 200 ∧ ∃ r : Int, r ≠ 0 ∧ tail = [Call.create_test_file 1 (test_name m) r]) ∨
       (m < 200 ∧ ∃ r : Int, r ≠ 0 ∧
          tail = [Call.create_test_file 1 (test_name m) 0,
                  Call.check_test_file 512 (test_name m) r]))) ∧
    ((∀ n name s, (ops.create_test_file n name s).1 = 0) →
     (∀ n name s, (ops.check_test_file n name s).1 = 0) →
      ∃ r2 : Int, (app_main ops s).1 =
        Call.init (ops.init s).1 :: Call.format (ops.format (ops.init s).2).1 ::
          (ok_pairs 200 0 ++ [Call.deinit r2])) := by
  constructor
  · obtain ⟨m, tail, hm, hle, hc⟩ := test_loop_trace ops 200 0 (ops.format (ops.init s).2).2
    refine ⟨m, tail,
      (ops.deinit (test_loop ops 200 0 (ops.format (ops.init s).2).2).2).1, ?_, hle, ?_⟩
    · simp [app_main, hm]
    · simpa using hc
  · intro hc hv
    refine ⟨(ops.deinit (test_loop ops 200 0 (ops.format (ops.init s).2).2).2).1, ?_⟩
    simp [app_main, test_loop_all_ok ops hc hv]

/-- C7, as stated, fails: when `spi_bus_initialize` fails, `init` returns -1
and `app_main` still calls `create_test_file(1, "test0")`. -/
theorem app_main_writes_after_failed_init :
    (init (hw_failing Prim.spi_bus_initialize 259)).1 = -1 ∧
    (app_main (sd_card_ops (fun _ => all_faults))
        ⟨hw_failing Prim.spi_bus_initialize 259, fs_empty⟩).1 =
      [Call.init (-1), Call.format 0, Call.create_test_file 1 "test0" (-1), Call.deinit 0] := by
  constructor
  · decide
  · decide

theorem test_loop_no_init {σ : Type} (ops : Ops σ) (remaining i : Nat) (s : σ) (r : Int) :
    Call.init r ∉ (test_loop ops remaining i s).1 := by
  induction remaining generalizing i s with
  | zero => simp [test_loop]
  | succ n ih =>
    simp only [test_loop]
    split
    · simp
    · split
      · simp
      · simp [ih]

theorem test_loop_head {σ : Type} (ops : Ops σ) (remaining i : Nat) (s : σ) :
    ∃ rest, (test_loop ops (remaining + 1) i s).1 =
      Call.create_test_file 1 (test_name i) (ops.create_test_file 1 (test_name i) s).1 ::
        rest := by
  simp only [test_loop, test_name]
  split
  · exact ⟨_, rfl⟩
  · split
    · exact ⟨_, rfl⟩
    · exact ⟨_, rfl⟩

theorem init_ok_iff (hw : Hw) :
    (init hw).1 = 0 ↔ ∀ q, q ∈ bringup_steps → hw.status q = ESP_OK := by
  simp only [init, trielo, ESP_OK, bringup_steps, List.mem_cons, List.mem_singleton,
    forall_eq_or_imp, forall_eq, List.not_mem_nil, false_implies, implies_true, and_true]
  by_cases h0 : hw.status Prim.spi_bus_initialize = 0 <;>
  by_cases h1 : hw.status Prim.sdspi_host_init = 0 <;>
  by_cases h2 : hw.status Prim.sdspi_host_init_device = 0 <;>
  by_cases h3 : hw.status Prim.sdmmc_card_init = 0 <;>
  by_cases h4 : hw.status Prim.esp_vfs_littlefs_register = 0 <;>
  simp [h0, h1, h2, h3, h4]

/-- C7, amended: in every run of `app_main`, for every outcome of the
bring-up primitives and of the file primitives, the first call is `init`, the
second is `format`, the third is `create_test_file(1, "test0")` whatever
`init` returned, and `init` is not called again; so every call of
`create_test_file` or `check_test_file` comes after `init` has returned, and
`init` returns 0 exactly when all five bring-up steps returned OK. -/
theorem app_main_tests_follow_init (flt : String → Faults) (w : World) :
    (∃ (r1 r2 : Int) (rest : List Call),
      (app_main (sd_card_ops flt) w).1 =
        Call.init (init w.hw).1 :: Call.format r1 ::
          Call.create_test_file 1 "test0" r2 :: rest ∧
      ∀ r, Call.init r ∉ rest) ∧
    ((init w.hw).1 = 0 ↔ ∀ q, q ∈ bringup_steps → w.hw.status q = ESP_OK) := by
  refine ⟨?_, init_ok_iff w.hw⟩
  obtain ⟨rest, hrest⟩ := test_loop_head (sd_card_ops flt) 199 0
    ((sd_card_ops flt).format ((sd_card_ops flt).init w).2).2
  have hno := fun r => test_loop_no_init (sd_card_ops flt) 200 0
    ((sd_card_ops flt).format ((sd_card_ops flt).init w).2).2 r
  have e : test_name 0 = "test0" := by decide
  rw [e] at hrest
  refine ⟨((sd_card_ops flt).format ((sd_card_ops flt).init w).2).1,
    ((sd_card_ops flt).create_test_file 1 "test0"
      ((sd_card_ops flt).format ((sd_card_ops flt).init w).2).2).1,
    rest ++ [Call.deinit ((sd_card_ops flt).deinit (test_loop (sd_card_ops flt) 200 0
      ((sd_card_ops flt).format ((sd_card_ops flt).init w).2).2).2).1], ?_, ?_⟩
  · simp only [app_main, hrest]
    rfl
  · intro r hmem
    rw [hrest] at hno
    have := hno r
    simp at hmem this
    exact this hmem

/-! ## The write path -/

theorem sectors_length (k : Nat) : (sectors k).length = 512 * k := by
  induction k with
  | zero => rfl
  | succ k ih => simp [sectors, buf_length, ih]; omega

theorem sectors_getElem? (k j : Nat) (h : j < 512 * k) :
    (sectors k)[j]? = some (97 + (j % 512) % 26) := by
  induction k generalizing j with
  | zero => omega
  | succ k ih =>
    simp only [sectors]
    by_cases hj : j < 512
    · rw [List.getElem?_append_left (by rw [buf_length]; exact hj), buf_getElem? j hj,
        Nat.mod_eq_of_lt hj]
    · rw [List.getElem?_append_right (by rw [buf_length]; omega), buf_length,
        ih (j - 512) (by omega)]
      have : (j - 512) % 512 = j % 512 := by omega
      rw [this]

theorem append_sector_content (path : String) (fs : Fs) :
    (append_sector path fs).files path = some (fs.content path ++ buf) := by
  simp [append_sector, fclose, fwrite, fopen_a, Fs.record, Fs.store, Fs.content, buf_length]

theorem append_sector_other (path q : String) (fs : Fs) (h : q ≠ path) :
    (append_sector path fs).files q = fs.files q := by
  simp [append_sector, fclose, fwrite, fopen_a, Fs.record, Fs.store, Fs.content, h]

theorem append_sector_log (path : String) (fs : Fs) :
    (append_sector path fs).log =
      fs.log ++ [FsOp.fopen path "a" true, FsOp.fwrite path 512, FsOp.fclose path] := by
  simp [append_sector, fclose, fwrite, fopen_a, Fs.record, Fs.store, Fs.content, buf_length]

theorem appended_content (path : String) (m : Nat) (fs : Fs) (c : List Nat)
    (h : fs.files path = some c) :
    (appended path m fs).files path = some (c ++ sectors m) := by
  induction m generalizing fs c with
  | zero => simp [appended, sectors, h]
  | succ m ih =>
    have h1 := append_sector_content path fs
    rw [appended, ih _ _ h1]
    simp [Fs.content, h, sectors]

theorem appended_other (path q : String) (m : Nat) (fs : Fs) (h : q ≠ path) :
    (appended path m fs).files q = fs.files q := by
  induction m generalizing fs with
  | zero => rfl
  | succ m ih => rw [appended, ih, append_sector_other path q fs h]

theorem appended_log (path : String) (m : Nat) (fs : Fs) :
    (appended path m fs).log = fs.log ++ append_ops path m := by
  induction m generalizing fs with
  | zero => simp [appended, append_ops]
  | succ m ih => rw [appended, ih, append_sector_log]; simp [append_ops]

theorem size_succ_eq (i : Nat) (h : i + 1 < SIZE_MOD) : size_succ i = i + 1 := by
  unfold size_succ
  exact Nat.mod_eq_of_lt h

theorem size_succ_lt (i : Nat) : size_succ i < SIZE_MOD := by
  unfold size_succ
  exact Nat.mod_lt _ (by decide)

theorem append_loop_step_ok (flt : Faults) (k : Nat) (path : String) (fuel i n : Nat) (fs : Fs)
    (hi : i ≤ k) (hok : append_passes flt n) :
    append_loop flt k path (fuel + 1) i n fs =
      append_loop flt k path fuel (size_succ i) (n + 1) (append_sector path fs) := by
  obtain ⟨h1, h2⟩ := hok
  rw [buf_length] at h2
  have h3 : ¬ flt.written n < 512 := by
    intro h
    rw [Nat.min_eq_left (Nat.le_of_lt h)] at h2
    omega
  simp only [append_loop, if_pos hi, h1]
  simp [fopen_a, fwrite, h2, h3, append_sector, buf_length, fclose]

theorem append_loop_run (flt : Faults) (k : Nat) (path : String) (m fuel i n : Nat) (fs : Fs)
    (hk : i + m ≤ k + 1) (hw : i + m < SIZE_MOD)
    (hok : ∀ t, t < m → append_passes flt (n + t)) :
    append_loop flt k path (fuel + m) i n fs =
      append_loop flt k path fuel (i + m) (n + m) (appended path m fs) := by
  induction m generalizing i n fs with
  | zero => rfl
  | succ m ih =>
    have e : fuel + (m + 1) = fuel + m + 1 := by omega
    rw [e, append_loop_step_ok flt k path _ i n fs (by omega) (by simpa using hok 0 (by omega)),
      size_succ_eq i (by omega), ih (i + 1) (n + 1) _ (by omega) (by omega)
        (fun t ht => by have := hok (t + 1) (by omega); rwa [show n + 1 + t = n + (t + 1) by omega])]
    rw [show i + 1 + m = i + (m + 1) by omega, show n + 1 + m = n + (m + 1) by omega, appended]

theorem append_loop_step_inv (flt : Faults) (k : Nat) (path : String) (fuel i n : Nat)
    (fs fs' : Fs) (hi : i ≤ k)
    (h : append_loop flt k path (fuel + 1) i n fs = some (0, fs')) :
    append_passes flt n ∧
      append_loop flt k path fuel (size_succ i) (n + 1) (append_sector path fs) =
        some (0, fs') := by
  simp only [append_loop, if_pos hi] at h
  by_cases ho : flt.open_a n = true
  · by_cases hw : min (flt.written n) buf.length = 512
    · have hok : append_passes flt n := ⟨ho, hw⟩
      refine ⟨hok, ?_⟩
      have := append_loop_step_ok flt k path fuel i n fs hi hok
      simp only [append_loop, if_pos hi] at this
      rw [← this]
      exact h
    · exfalso
      rw [buf_length] at hw
      simp [fopen_a, fwrite, ho, buf_length, hw] at h
  · exfalso
    simp [fopen_a, ho] at h

theorem append_loop_never_zero (flt : Faults) (k : Nat) (path : String) (hk : SIZE_MOD ≤ k + 1)
    (fuel i n : Nat) (fs fs' : Fs) (hi : i < SIZE_MOD) :
    append_loop flt k path fuel i n fs ≠ some (0, fs') := by
  induction fuel generalizing i n fs with
  | zero => simp [append_loop]
  | succ fuel ih =>
    intro h
    have := (append_loop_step_inv flt k path fuel i n fs fs' (by omega) h).2
    exact ih _ _ _ (size_succ_lt i) this

theorem append_loop_zero_inv (flt : Faults) (k : Nat) (path : String)
    (fuel i n : Nat) (fs fs' : Fs) (hi : i < SIZE_MOD) (hik : i ≤ k + 1)
    (h : append_loop flt k path fuel i n fs = some (0, fs')) :
    ∃ m, i + m = k + 1 ∧ k + 1 < SIZE_MOD ∧ (∀ t, t < m → append_passes flt (n + t)) ∧
      fs' = appended path m fs := by
  induction fuel generalizing i n fs with
  | zero => simp [append_loop] at h
  | succ fuel ih =>
    by_cases hle : i ≤ k
    · obtain ⟨hok, hrec⟩ := append_loop_step_inv flt k path fuel i n fs fs' hle h
      by_cases hwrap : i + 1 < SIZE_MOD
      · rw [size_succ_eq i hwrap] at hrec
        obtain ⟨m, hm, hkk, hall, hfs⟩ := ih (i + 1) (n + 1) _ hwrap (by omega) hrec
        refine ⟨m + 1, by omega, hkk, ?_, ?_⟩
        · intro t ht
          cases t with
          | zero => exact hok
          | succ t =>
            have := hall t (by omega)
            rwa [show n + 1 + t = n + (t + 1) by omega] at this
        · rw [appended]; exact hfs
      · exact absurd hrec
          (append_loop_never_zero flt k path (by omega) fuel _ _ _ fs' (size_succ_lt i))
    · have hik2 : i = k + 1 := by omega
      simp only [append_loop, if_neg hle] at h
      refine ⟨0, by omega, by omega, fun t ht => by omega, ?_⟩
      have : fs = fs' := by simpa using h
      rw [← this]; rfl

theorem create_test_file_open_ok (fuel : Nat) (flt : Faults) (k : Nat) (name : String) (fs : Fs)
    (ho : flt.open_w = true) :
    create_test_file fuel flt k name fs =
      append_loop flt k (test_megabyte name) fuel 1 0
        ((fclose true (test_megabyte name) (fopen_w true (test_megabyte name) fs).2).2) := by
  simp [create_test_file, fopen_w, ho, fclose]

theorem truncated_file (path : String) (fs : Fs) :
    (fclose true path (fopen_w true path fs).2).2.files path = some [] := by
  simp [fclose, fopen_w, Fs.record, Fs.store]

theorem truncated_log (path : String) (fs : Fs) :
    (fclose true path (fopen_w true path fs).2).2.log =
      fs.log ++ [FsOp.fopen path "w" true, FsOp.fclose path] := by
  simp [fclose, fopen_w, Fs.record, Fs.store]

theorem create_test_file_zero_inv (fuel : Nat) (flt : Faults) (k : Nat) (name : String)
    (fs fs' : Fs) (h : create_test_file fuel flt k name fs = some (0, fs')) :
    flt.open_w = true ∧ k + 1 < SIZE_MOD ∧ (∀ t, t < k → append_passes flt t) ∧
      fs' = appended (test_megabyte name) k
        ((fclose true (test_megabyte name) (fopen_w true (test_megabyte name) fs).2).2) := by
  by_cases ho : flt.open_w = true
  · rw [create_test_file_open_ok fuel flt k name fs ho] at h
    obtain ⟨m, hm, hk, hall, hfs⟩ :=
      append_loop_zero_inv flt k _ fuel 1 0 _ fs' (by decide) (by omega) h
    have hmk : m = k := by omega
    subst hmk
    exact ⟨ho, hk, fun t ht => by simpa using hall t ht, hfs⟩
  · exfalso
    simp [create_test_file, fopen_w, ho] at h

theorem create_test_file_all_ok (fuel : Nat) (flt : Faults) (k : Nat) (name : String) (fs : Fs)
    (ho : flt.open_w = true) (hk : k + 1 < SIZE_MOD) (hall : ∀ t, t < k → append_passes flt t)
    (hfuel : k < fuel) :
    create_test_file fuel flt k name fs =
      some (0, appended (test_megabyte name) k
        ((fclose true (test_megabyte name) (fopen_w true (test_megabyte name) fs).2).2)) := by
  rw [create_test_file_open_ok fuel flt k name fs ho]
  obtain ⟨d, rfl⟩ : ∃ d, fuel = (d + 1) + k := ⟨fuel - k - 1, by omega⟩
  rw [append_loop_run flt k _ k (d + 1) 1 0 _ (by omega) (by omega)
    (fun t ht => by simpa using hall t ht)]
  simp [append_loop]

/-! ## The verify path -/

theorem check_next_cycle (p : Nat) : check_next (97 + p % 26) = 97 + (p + 1) % 26 :=
  gen_next_cycle p

theorem fgetc_ne_iff (content : List Nat) (pos c : Nat) :
    fgetc content pos ≠ (c : Int) ↔ content[pos]? ≠ some c := by
  unfold fgetc
  cases content[pos]? with
  | none => simp
  | some b => simp

theorem check_loop_step_match (close_ok : Bool) (size : Nat) (path : String)
    (content : List Nat) (fuel i c pos : Nat) (fs : Fs) (hi : i ≤ size)
    (hm : content[pos]? = some c) :
    check_loop close_ok size path content (fuel + 1) i c pos fs =
      check_loop close_ok size path content fuel (size_succ i) (check_next c) (pos + 1)
        ⟨fs.files, fs.log ++ [FsOp.fgetc path]⟩ := by
  have h : ¬ (fgetc content pos ≠ (c : Int)) := by
    rw [fgetc_ne_iff]; simp [hm]
  simp only [check_loop, if_pos hi, if_neg h, Fs.record]

theorem check_loop_step_mismatch (close_ok : Bool) (size : Nat) (path : String)
    (content : List Nat) (fuel i c pos : Nat) (fs : Fs) (hi : i ≤ size)
    (hm : content[pos]? ≠ some c) :
    check_loop close_ok size path content (fuel + 1) i c pos fs =
      some (to_int ((i + 1) % SIZE_MOD),
        ⟨fs.files, fs.log ++ [FsOp.fgetc path] ++ [FsOp.fclose path]⟩) := by
  have h : fgetc content pos ≠ (c : Int) := (fgetc_ne_iff content pos c).2 hm
  simp only [check_loop, if_pos hi, if_pos h, Fs.record, fclose]

theorem check_loop_exit (close_ok : Bool) (size : Nat) (path : String)
    (content : List Nat) (fuel i c pos : Nat) (fs : Fs) (hi : ¬ i ≤ size) :
    check_loop close_ok size path content (fuel + 1) i c pos fs =
      some (if close_ok = false then -2 else 0, ⟨fs.files, fs.log ++ [FsOp.fclose path]⟩) := by
  simp only [check_loop, if_neg hi, Fs.record, fclose]
  split <;> rfl

theorem check_loop_run (close_ok : Bool) (size : Nat) (path : String) (content : List Nat)
    (m p fuel : Nat) (fs : Fs)
    (hmatch : ∀ t, p ≤ t → t < p + m → ¬ mismatch content t)
    (hsize : p + m ≤ size) (hw : p + m + 1 < SIZE_MOD) :
    check_loop close_ok size path content (fuel + m) (p + 1) (97 + p % 26) p fs =
      check_loop close_ok size path content fuel (p + m + 1) (97 + (p + m) % 26) (p + m)
        ⟨fs.files, fs.log ++ read_ops path m⟩ := by
  induction m generalizing p fs with
  | zero => simp [read_ops]
  | succ m ih =>
    have hp : content[p]? = some (97 + p % 26) := by
      have := hmatch p (le_refl p) (by omega)
      simpa [mismatch] using this
    have e : fuel + (m + 1) = fuel + m + 1 := by omega
    rw [e, check_loop_step_match close_ok size path content _ _ _ _ fs (by omega) hp,
      size_succ_eq (p + 1) (by omega), check_next_cycle,
      ih (p + 1) _ (fun t h1 h2 => hmatch t (by omega) (by omega)) (by omega) (by omega)]
    have e1 : p + 1 + m = p + (m + 1) := by omega
    simp only [e1, read_ops, List.replicate_succ, List.append_assoc, List.singleton_append]

theorem check_loop_first_mismatch (close_ok : Bool) (size : Nat) (path : String)
    (content : List Nat) (j fuel : Nat) (fs : Fs)
    (hj : j < size) (hw : j + 1 < SIZE_MOD) (hmis : mismatch content j)
    (hleast : ∀ t, t < j → ¬ mismatch content t) (hfuel : j < fuel) :
    check_loop close_ok size path content fuel 1 97 0 fs =
      some (to_int ((j + 2) % SIZE_MOD),
        ⟨fs.files, fs.log ++ read_ops path (j + 1) ++ [FsOp.fclose path]⟩) := by
  obtain ⟨d, rfl⟩ : ∃ d, fuel = (d + 1) + j := ⟨fuel - j - 1, by omega⟩
  have h := check_loop_run close_ok size path content j 0 (d + 1) fs
    (fun t _ h2 => hleast t (by omega)) (by omega) (by omega)
  simp only [Nat.zero_add, Nat.zero_mod, Nat.add_zero] at h
  rw [h, check_loop_step_mismatch close_ok size path content d _ _ _ _ (by omega) hmis]
  have e : read_ops path (j + 1) = read_ops path j ++ [FsOp.fgetc path] := by
    simp [read_ops, List.replicate_succ']
  simp [e]

theorem check_loop_all_match (close_ok : Bool) (size : Nat) (path : String)
    (content : List Nat) (fuel : Nat) (fs : Fs)
    (hw : size + 1 < SIZE_MOD) (hall : ∀ t, t < size → ¬ mismatch content t)
    (hfuel : size < fuel) :
    check_loop close_ok size path content fuel 1 97 0 fs =
      some (if close_ok = false then -2 else 0,
        ⟨fs.files, fs.log ++ read_ops path size ++ [FsOp.fclose path]⟩) := by
  obtain ⟨d, rfl⟩ : ∃ d, fuel = (d + 1) + size := ⟨fuel - size - 1, by omega⟩
  have h := check_loop_run close_ok size path content size 0 (d + 1) fs
    (fun t _ h2 => hall t (by omega)) (by omega) (by omega)
  simp only [Nat.zero_add, Nat.zero_mod, Nat.add_zero] at h
  rw [h, check_loop_exit close_ok size path content d _ _ _ _ (by omega)]

theorem check_test_file_opened (fuel : Nat) (flt : Faults) (size : Nat) (name : String)
    (fs : Fs) (content : List Nat) (hfile : fs.files (test_megabyte name) = some content)
    (hopen : flt.open_r = true) :
    check_test_file fuel flt size name fs =
      check_loop flt.close_r size (test_megabyte name) content fuel 1 97 0
        ⟨fs.files, fs.log ++ [FsOp.fopen (test_megabyte name) "r" true]⟩ := by
  simp [check_test_file, fopen_r, hfile, hopen, Fs.record]

theorem to_int_small (x : Nat) (h : x < 2147483648) : to_int x = (x : Int) := by
  unfold to_int SIZE_MOD
  have e : x % 4294967296 = x := Nat.mod_eq_of_lt (by omega)
  rw [e, if_pos h]

/-! ## Write, then verify -/

theorem append_passes_no_faults (t : Nat) : append_passes no_faults t :=
  ⟨rfl, by simp [no_faults, buf_length]⟩

theorem sectors_match (k n t : Nat) (hn : n ≤ 512) (hk : 0 < k) (ht : t < n) :
    ¬ mismatch (sectors k) t := by
  have h := sectors_getElem? k t (by omega)
  rw [Nat.mod_eq_of_lt (by omega : t < 512)] at h
  simp [mismatch, h]

theorem create_no_faults (fuel k : Nat) (name : String) (fs : Fs) (hk : k + 1 < SIZE_MOD)
    (hfuel : k < fuel) :
    ∃ fs', create_test_file fuel no_faults k name fs = some (0, fs') ∧
      fs'.files (test_megabyte name) = some (sectors k) := by
  refine ⟨_, create_test_file_all_ok fuel no_faults k name fs rfl hk
    (fun t _ => append_passes_no_faults t) hfuel, ?_⟩
  rw [appended_content _ k _ [] (truncated_file _ fs)]
  simp

/-- C2: for every file name and every prior file-system content, when every
open, write and close succeeds, `create_test_file(1, name)` returns 0 (given
fuel for its one iteration) and a following `check_test_file(n, name)` returns
0 for every `n ≤ 512`. -/
theorem write_then_verify (name : String) (fs : Fs) (n f1 f2 : Nat) (hn : n ≤ 512)
    (h1 : 1 < f1) (h2 : n < f2) :
    ∃ fs', create_test_file f1 no_faults 1 name fs = some (0, fs') ∧
      ∃ fs'', check_test_file f2 no_faults n name fs' = some (0, fs'') := by
  obtain ⟨fs', hc, hfile⟩ := create_no_faults f1 1 name fs (by decide) h1
  refine ⟨fs', hc, ?_⟩
  rw [check_test_file_opened f2 no_faults n name fs' _ hfile rfl,
    check_loop_all_match _ n _ _ f2 _ (by unfold SIZE_MOD; omega)
      (fun t ht => sectors_match 1 n t hn (by decide) ht) h2]
  exact ⟨_, rfl⟩

/-- C3: for every file name, when every open, write and close succeeds,
`create_test_file(2, name)` returns 0 and a following
`check_test_file(1024, name)` returns exactly 514: the first mismatch is at
byte index 512, where the file holds `'a'` (97) and the verifier expects
`'a' + 18` (115). -/
theorem two_sectors_mismatch (name : String) (fs : Fs) (f1 f2 : Nat)
    (h1 : 2 < f1) (h2 : 512 < f2) :
    ∃ fs' data, create_test_file f1 no_faults 2 name fs = some (0, fs') ∧
      fs'.files (test_megabyte name) = some data ∧
      data[512]? = some 97 ∧ 97 + 512 % 26 = 115 ∧ mismatch data 512 ∧
      (∀ t, t < 512 → ¬ mismatch data t) ∧
      ∃ fs'', check_test_file f2 no_faults 1024 name fs' = some (514, fs'') := by
  obtain ⟨fs', hc, hfile⟩ := create_no_faults f1 2 name fs (by decide) h1
  have h512 : (sectors 2)[512]? = some 97 := by
    have := sectors_getElem? 2 512 (by decide)
    simpa using this
  have hmis : mismatch (sectors 2) 512 := by
    simp [mismatch, h512]
  have hleast : ∀ t, t < 512 → ¬ mismatch (sectors 2) t :=
    fun t ht => sectors_match 2 512 t (le_refl _) (by decide) ht
  refine ⟨fs', sectors 2, hc, hfile, h512, by decide, hmis, hleast, ?_⟩
  rw [check_test_file_opened f2 no_faults 1024 name fs' _ hfile rfl,
    check_loop_first_mismatch _ 1024 _ _ 512 f2 _ (by decide) (by decide) hmis hleast h2]
  exact ⟨_, by rw [show to_int ((512 + 2) % SIZE_MOD) = 514 by decide]⟩

/-- C8: for every sector count `k`, file name and prior content, if
`create_test_file(k, name)` returns 0, the file's content afterwards is
exactly `512 * k` bytes long and its byte at every index `j < 512 * k` is
`'a' + ((j mod 512) mod 26)`: the pattern buffer repeated `k` times, prior
content discarded. -/
theorem create_test_file_content (fuel : Nat) (flt : Faults) (k : Nat) (name : String)
    (fs fs' : Fs) (h : create_test_file fuel flt k name fs = some (0, fs')) :
    ∃ data, fs'.files (test_megabyte name) = some data ∧ data = sectors k ∧
      data.length = 512 * k ∧ ∀ j, j < 512 * k → data[j]? = some (97 + (j % 512) % 26) := by
  obtain ⟨_, _, _, hfs⟩ := create_test_file_zero_inv fuel flt k name fs fs' h
  refine ⟨sectors k, ?_, rfl, sectors_length k, sectors_getElem? k⟩
  rw [hfs, appended_content _ k _ [] (truncated_file _ fs)]
  simp

/-! ## The diagnostic code of `check_test_file` -/

theorem cycle_file_getElem?_lt (n t : Nat) (h : t < n) :
    (cycle_file n)[t]? = some (97 + t % 26) := by
  simp [cycle_file, List.getElem?_map, List.getElem?_range h]

theorem cycle_file_getElem?_ge (n t : Nat) (h : n ≤ t) : (cycle_file n)[t]? = none := by
  rw [List.getElem?_eq_none]
  simpa [cycle_file] using h

theorem cycle_file_match (n t : Nat) (h : t < n) : ¬ mismatch (cycle_file n) t := by
  simp [mismatch, cycle_file_getElem?_lt n t h]

theorem cycle_file_eof (n : Nat) : mismatch (cycle_file n) n := by
  simp [mismatch, cycle_file_getElem?_ge n n (le_refl n)]

theorem test_megabyte_f : test_megabyte "f" = "/sdcard/f" := by decide

theorem fs_with_file (name : String) (content : List Nat) :
    (fs_with (test_megabyte name) content).files (test_megabyte name) = some content := by
  simp [fs_with]

theorem check_cycle_file_eof (n size fuel : Nat) (hn : n < size) (hw : n + 1 < SIZE_MOD)
    (hfuel : n < fuel) :
    ∃ fs', check_test_file fuel no_faults size "f"
        (fs_with (test_megabyte "f") (cycle_file n)) =
      some (to_int ((n + 2) % SIZE_MOD), fs') := by
  rw [check_test_file_opened fuel no_faults size "f" _ _ (fs_with_file "f" _) rfl,
    check_loop_first_mismatch _ size _ _ n fuel _ hn hw (cycle_file_eof n)
      (fun t ht => cycle_file_match n t ht) hfuel]
  exact ⟨_, rfl⟩

theorem check_loop_size_max (close_ok : Bool) (path : String) (content : List Nat)
    (fuel : Nat) (fs : Fs) (hall : ∀ t, t < 4294967295 → ¬ mismatch content t)
    (hend : content[4294967295]? = none) (hfuel : 4294967296 < fuel) :
    ∃ fs', check_loop close_ok 4294967295 path content fuel 1 97 0 fs = some (1, fs') := by
  obtain ⟨d, rfl⟩ : ∃ d, fuel = (d + 1 + 1) + 4294967294 := ⟨fuel - 4294967296, by omega⟩
  have h := check_loop_run close_ok 4294967295 path content 4294967294 0 (d + 1 + 1) fs
    (fun t _ h2 => hall t (by omega)) (by omega) (by unfold SIZE_MOD; omega)
  simp only [Nat.zero_add, Nat.zero_mod, Nat.add_zero] at h
  have hlast : content[4294967294]? = some (97 + 4294967294 % 26) := by
    have := hall 4294967294 (by omega)
    simpa [mismatch] using this
  have hs : size_succ (4294967294 + 1) = 0 := by decide
  rw [h, check_loop_step_match close_ok _ path content _ _ _ _ _ (by omega) hlast, hs,
    check_loop_step_mismatch close_ok _ path content _ _ _ _ _ (by omega)
      (by rw [hend]; simp)]
  exact ⟨_, by rw [show to_int ((0 + 1) % SIZE_MOD) = 1 by decide]⟩

theorem check_cycle_file_size_max (fuel : Nat) (hfuel : 4294967296 < fuel) :
    ∃ fs', check_test_file fuel no_faults 4294967295 "f"
        (fs_with (test_megabyte "f") (cycle_file 4294967295)) = some (1, fs') := by
  rw [check_test_file_opened fuel no_faults 4294967295 "f" _ _ (fs_with_file "f" _) rfl]
  exact check_loop_size_max _ _ _ fuel _ (fun t ht => cycle_file_match _ t ht)
    (cycle_file_getElem?_ge _ _ (le_refl _)) hfuel

/-- C9, as stated, fails in two places, both at the limits of the machine
integers. On a file of `2^31 - 2` bytes that all match, verified over
`2^31 - 1` bytes, the first mismatch is the end of file at index
`j = 2^31 - 2`, and the code returned is `static_cast<int>(2^31)`, the
negative `-2^31`, not `j + 2`. And for `size_bytes = 2^32 - 1` on a file of
`2^32 - 1` bytes that all match, no index below `size_bytes` mismatches, yet
the counter wraps to 0, the loop goes on to the end of file and the code
returned is 1, not 0. -/
theorem check_test_file_int_overflow :
    (mismatch (cycle_file 2147483646) 2147483646 ∧
      (∀ t, t < 2147483646 → ¬ mismatch (cycle_file 2147483646) t) ∧
      ∃ fs', check_test_file 2147483648 no_faults 2147483647 "f"
          (fs_with (test_megabyte "f") (cycle_file 2147483646)) =
        some (-2147483648, fs')) ∧
    ((∀ t, t < 4294967295 → ¬ mismatch (cycle_file 4294967295) t) ∧
      ∃ fs', check_test_file 4294967297 no_faults 4294967295 "f"
          (fs_with (test_megabyte "f") (cycle_file 4294967295)) = some (1, fs')) := by
  refine ⟨⟨cycle_file_eof _, fun t ht => cycle_file_match _ t ht, ?_⟩,
    fun t ht => cycle_file_match _ t ht, check_cycle_file_size_max _ (by omega)⟩
  obtain ⟨fs', h⟩ := check_cycle_file_eof 2147483646 2147483647 2147483648 (by omega)
    (by unfold SIZE_MOD; omega) (by omega)
  rw [show to_int ((2147483646 + 2) % SIZE_MOD) = -2147483648 by decide] at h
  exact ⟨fs', h⟩

/-- C9, amended: when the file opens for reading, if `j < size_bytes` is the
least index at which the byte read (end of file counting as a non-matching
byte) differs from `'a' + (j mod 26)`, the cycle running on over the whole
read, and `j + 2` fits the `int` result (`j + 2 < 2^31`), `check_test_file`
returns the positive code `j + 2` having read exactly the `j + 1` bytes up to
index `j`; if no index below `size_bytes` mismatches, `size_bytes` is below
the largest `size_t` value and the close succeeds, it returns 0 having read
`size_bytes` bytes. -/
theorem check_test_file_first_mismatch (fuel : Nat) (flt : Faults) (size : Nat)
    (name : String) (fs : Fs) (content : List Nat)
    (hfile : fs.files (test_megabyte name) = some content) (hopen : flt.open_r = true) :
    (∀ j, j < size → mismatch content j → (∀ t, t < j → ¬ mismatch content t) →
      j + 2 < 2147483648 → j < fuel →
      ∃ fs', check_test_file fuel flt size name fs = some ((j : Int) + 2, fs') ∧
        0 < (j : Int) + 2 ∧
        fs'.log = fs.log ++ FsOp.fopen (test_megabyte name) "r" true ::
          (read_ops (test_megabyte name) (j + 1) ++ [FsOp.fclose (test_megabyte name)])) ∧
    ((∀ t, t < size → ¬ mismatch content t) → size + 1 < SIZE_MOD → flt.close_r = true →
      size < fuel →
      ∃ fs', check_test_file fuel flt size name fs = some (0, fs') ∧
        fs'.log = fs.log ++ FsOp.fopen (test_megabyte name) "r" true ::
          (read_ops (test_megabyte name) size ++ [FsOp.fclose (test_megabyte name)])) := by
  constructor
  · intro j hj hmis hleast hfit hfuel
    rw [check_test_file_opened fuel flt size name fs content hfile hopen,
      check_loop_first_mismatch _ size _ _ j fuel _ hj (by unfold SIZE_MOD; omega) hmis hleast
        hfuel]
    have e : to_int ((j + 2) % SIZE_MOD) = (j : Int) + 2 := by
      have h1 : (j + 2) % SIZE_MOD = j + 2 := Nat.mod_eq_of_lt (by unfold SIZE_MOD; omega)
      rw [h1, to_int_small _ hfit]
      push_cast
      rfl
    rw [e]
    exact ⟨_, rfl, by omega, by simp⟩
  · intro hall hw hclose hfuel
    rw [check_test_file_opened fuel flt size name fs content hfile hopen,
      check_loop_all_match _ size _ _ fuel _ hw hall hfuel, hclose]
    exact ⟨_, rfl, by simp⟩

/-! ## Failure codes of `create_test_file` -/

theorem append_loop_step_open_fail (flt : Faults) (k : Nat) (path : String) (fuel i n : Nat)
    (fs : Fs) (hi : i ≤ k) (ho : flt.open_a n = false) :
    append_loop flt k path (fuel + 1) i n fs =
      some (-2, ⟨fs.files, fs.log ++ [FsOp.fopen path "a" false]⟩) := by
  simp [append_loop, hi, fopen_a, ho, Fs.record]

theorem append_loop_step_short (flt : Faults) (k : Nat) (path : String) (fuel i n : Nat)
    (fs : Fs) (hi : i ≤ k) (ho : flt.open_a n = true)
    (hw : min (flt.written n) buf.length ≠ 512) :
    ∃ fs', append_loop flt k path (fuel + 1) i n fs = some (-3, fs') ∧
      fs'.log = fs.log ++
        [FsOp.fopen path "a" true, FsOp.fwrite path (min (flt.written n) buf.length)] := by
  have hw2 : (fwrite buf (flt.written n) path (fopen_a (flt.open_a n) path fs).2).1 ≠
      buf.length := by
    simpa [fwrite, buf_length] using hw
  refine ⟨(fwrite buf (flt.written n) path (fopen_a (flt.open_a n) path fs).2).2, ?_, ?_⟩
  · simp only [append_loop, if_pos hi]
    rw [if_neg (by simp [fopen_a, ho]), if_pos hw2]
  · simp [fwrite, fopen_a, ho, Fs.record, Fs.store]

/-- What `create_test_file` reports, for a sector count `k` that is a `size_t`
value, every name and every outcome of the file primitives: it returns -1
when the initial create/truncate open fails, having made no append; when
appends `0 .. m - 1` pass (open succeeds, write count 512) and append `m < k`
does not, it returns -2 if the open of append `m` fails and -3 if its write
count is not 512, and the log shows the `m` complete appends followed by the
failing one and nothing after it; it returns 0 only if the initial open
succeeded and each of the `k` appends passed, and it does return 0 in that
case when `k` is below the largest `size_t` value. The outcome of no `fclose`
enters. -/
theorem create_test_file_failure_codes (flt : Faults) (k : Nat) (name : String) (fs : Fs)
    (hk : k < SIZE_MOD) :
    (flt.open_w = false → ∀ fuel,
      ∃ fs', create_test_file fuel flt k name fs = some (-1, fs') ∧
        fs'.log = fs.log ++ [FsOp.fopen (test_megabyte name) "w" false]) ∧
    (flt.open_w = true → ∀ m, m < k → (∀ t, t < m → append_passes flt t) →
      (flt.open_a m = false → ∀ fuel, m < fuel →
        ∃ fs', create_test_file fuel flt k name fs = some (-2, fs') ∧
          fs'.log = fs.log ++
            [FsOp.fopen (test_megabyte name) "w" true, FsOp.fclose (test_megabyte name)] ++
            append_ops (test_megabyte name) m ++
            [FsOp.fopen (test_megabyte name) "a" false]) ∧
      (flt.open_a m = true → min (flt.written m) buf.length ≠ 512 → ∀ fuel, m < fuel →
        ∃ fs', create_test_file fuel flt k name fs = some (-3, fs') ∧
          fs'.log = fs.log ++
            [FsOp.fopen (test_megabyte name) "w" true, FsOp.fclose (test_megabyte name)] ++
            append_ops (test_megabyte name) m ++
            [FsOp.fopen (test_megabyte name) "a" true,
              FsOp.fwrite (test_megabyte name) (min (flt.written m) buf.length)])) ∧
    (∀ fuel fs', create_test_file fuel flt k name fs = some (0, fs') →
      flt.open_w = true ∧ ∀ t, t < k → append_passes flt t) ∧
    (flt.open_w = true → (∀ t, t < k → append_passes flt t) → k + 1 < SIZE_MOD →
      ∀ fuel, k < fuel → ∃ fs', create_test_file fuel flt k name fs = some (0, fs')) := by
  refine ⟨?_, ?_, ?_, ?_⟩
  · intro ho fuel
    refine ⟨fs.record (FsOp.fopen (test_megabyte name) "w" false), ?_, ?_⟩
    · simp [create_test_file, fopen_w, ho]
    · simp [Fs.record]
  · intro ho m hm hall
    have hrun : ∀ d, append_loop flt k (test_megabyte name) (d + 1 + m) 1 0
        ((fclose true (test_megabyte name) (fopen_w true (test_megabyte name) fs).2).2) =
        append_loop flt k (test_megabyte name) (d + 1) (1 + m) (0 + m)
          (appended (test_megabyte name) m
            ((fclose true (test_megabyte name) (fopen_w true (test_megabyte name) fs).2).2)) :=
      fun d => append_loop_run flt k _ m (d + 1) 1 0 _ (by omega) (by omega)
        (fun t ht => by simpa using hall t ht)
    constructor
    · intro hfail fuel hfuel
      obtain ⟨d, rfl⟩ : ∃ d, fuel = (d + 1) + m := ⟨fuel - m - 1, by omega⟩
      rw [create_test_file_open_ok _ flt k name fs ho, hrun d,
        append_loop_step_open_fail flt k _ d _ _ _ (by omega) (by simpa using hfail)]
      exact ⟨_, rfl, by simp [appended_log, truncated_log]⟩
    · intro hopen hshort fuel hfuel
      obtain ⟨d, rfl⟩ : ∃ d, fuel = (d + 1) + m := ⟨fuel - m - 1, by omega⟩
      obtain ⟨fs', h1, h2⟩ := append_loop_step_short flt k (test_megabyte name) d (1 + m)
        (0 + m) (appended (test_megabyte name) m
          ((fclose true (test_megabyte name) (fopen_w true (test_megabyte name) fs).2).2))
        (by omega) (by simpa using hopen) (by simpa using hshort)
      rw [create_test_file_open_ok _ flt k name fs ho, hrun d, h1]
      refine ⟨fs', rfl, ?_⟩
      rw [h2]
      simp [appended_log, truncated_log]
  · intro fuel fs' h
    obtain ⟨h1, _, h3, _⟩ := create_test_file_zero_inv fuel flt k name fs fs' h
    exact ⟨h1, h3⟩
  · intro ho hall hk1 fuel hfuel
    exact ⟨_, create_test_file_all_ok fuel flt k name fs ho hk1 hall hfuel⟩

/-- C10 fails on the code: with one sector requested, the open and the write
of the append succeeding (write count 512) and its `fclose` failing, the
append does not fully succeed, yet `create_test_file` returns 0: the value of
`fclose` is not examined. -/
theorem create_test_file_ignores_close :
    close_fails.open_a 0 = true ∧ min (close_fails.written 0) buf.length = 512 ∧
    close_fails.close_a 0 = false ∧ ¬ append_ok close_fails 0 ∧
    ∃ fs', create_test_file 2 close_fails 1 "f" fs_empty = some (0, fs') := by
  refine ⟨rfl, by rw [buf_length]; decide, rfl, fun h => by simpa [close_fails] using h.2, ?_⟩
  exact ⟨_, create_test_file_all_ok 2 close_fails 1 "f" fs_empty rfl (by decide)
    (fun t _ => ⟨rfl, by simp [close_fails, buf_length]⟩) (by decide)⟩

/-! ## The theorems at concrete inputs -/

/-- When attaching the device fails with status 259 after two successful
steps, `init` returns -3. -/
theorem init_short_circuit_witness :
    (hw_failing Prim.sdspi_host_init_device 259).status Prim.sdspi_host_init_device ≠ ESP_OK ∧
    (init (hw_failing Prim.sdspi_host_init_device 259)).1 = -3 := by
  have hbad : (hw_failing Prim.sdspi_host_init_device 259).status
      Prim.sdspi_host_init_device ≠ ESP_OK := by decide
  refine ⟨hbad, ?_⟩
  have h := ((init_short_circuit (hw_failing Prim.sdspi_host_init_device 259)).1 2
    Prim.sdspi_host_init_device (by decide)
    (by
      intro j q hj hq
      interval_cases j <;> simp [bringup_steps] at hq <;> subst hq <;> decide)
    (by decide) hbad).1
  simpa using h

/-- When `sdspi_host_deinit` fails with status 259 after two successful steps,
`deinit` returns 259. -/
theorem deinit_fail_fast_witness :
    (hw_failing Prim.sdspi_host_deinit 259).status Prim.sdspi_host_deinit ≠ ESP_OK ∧
    (deinit (hw_failing Prim.sdspi_host_deinit 259)).1 = 259 := by
  have hbad : (hw_failing Prim.sdspi_host_deinit 259).status
      Prim.sdspi_host_deinit ≠ ESP_OK := by decide
  refine ⟨hbad, ?_⟩
  have h := ((deinit_fail_fast (hw_failing Prim.sdspi_host_deinit 259)).1 2
    Prim.sdspi_host_deinit (by decide)
    (by
      intro j q hj hq
      interval_cases j <;> simp [teardown_steps] at hq <;> subst hq <;> decide)
    (by decide) hbad).1
  rw [h]
  decide

/-- When every operation returns 0, `app_main` runs the 200 pairs. -/
theorem app_main_trace_witness :
    ∃ r2 : Int, (app_main ops_ok ()).1 =
      Call.init 0 :: Call.format 0 :: (ok_pairs 200 0 ++ [Call.deinit r2]) :=
  (app_main_trace ops_ok ()).2 (fun _ _ _ => rfl) (fun _ _ _ => rfl)

/-- Writing one sector to `f` over a file that held other bytes, then
verifying 512 bytes, returns 0 twice. -/
theorem write_then_verify_witness :
    512 ≤ 512 ∧
    ∃ fs', create_test_file 2 no_faults 1 "f" (fs_with (test_megabyte "f") [1, 2, 3]) =
        some (0, fs') ∧
      ∃ fs'', check_test_file 513 no_faults 512 "f" fs' = some (0, fs'') :=
  ⟨by decide, write_then_verify "f" (fs_with (test_megabyte "f") [1, 2, 3]) 512 2 513
    (by decide) (by decide) (by decide)⟩

/-- Writing two sectors to `f` on an empty file system, then verifying 1024
bytes, returns 514. -/
theorem two_sectors_mismatch_witness :
    ∃ fs', create_test_file 3 no_faults 2 "f" fs_empty = some (0, fs') ∧
      ∃ fs'', check_test_file 513 no_faults 1024 "f" fs' = some (514, fs'') := by
  obtain ⟨fs', _, h1, _, _, _, _, _, h2⟩ :=
    two_sectors_mismatch "f" fs_empty 3 513 (by decide) (by decide)
  exact ⟨fs', h1, h2⟩

/-- Writing two sectors to `f` over a file that held other bytes leaves
1024 bytes in it. -/
theorem create_test_file_content_witness :
    ∃ fs' data, create_test_file 3 no_faults 2 "f" (fs_with (test_megabyte "f") [1, 2, 3]) =
        some (0, fs') ∧
      fs'.files (test_megabyte "f") = some data ∧ data.length = 1024 ∧
      data[512]? = some 97 := by
  have h := create_test_file_all_ok 3 no_faults 2 "f" (fs_with (test_megabyte "f") [1, 2, 3])
    rfl (by decide) (fun t _ => append_passes_no_faults t) (by decide)
  obtain ⟨data, h1, _, h3, h4⟩ := create_test_file_content 3 no_faults 2 "f" _ _ h
  exact ⟨_, data, h, h1, h3, by simpa using h4 512 (by decide)⟩

/-- On the three-byte file `a b x`, verifying 3 bytes returns 4: the first
mismatch is at index 2. -/
theorem check_test_file_first_mismatch_witness :
    mismatch [97, 98, 120] 2 ∧ (∀ t, t < 2 → ¬ mismatch [97, 98, 120] t) ∧
    ∃ fs', check_test_file 3 no_faults 3 "f" (fs_with (test_megabyte "f") [97, 98, 120]) =
      some (4, fs') := by
  have hmis : mismatch [97, 98, 120] 2 := by unfold mismatch; decide
  have hleast : ∀ t, t < 2 → ¬ mismatch [97, 98, 120] t := by
    intro t ht
    interval_cases t <;> simp [mismatch]
  obtain ⟨fs', h, _, _⟩ := (check_test_file_first_mismatch 3 no_faults 3 "f"
    (fs_with (test_megabyte "f") [97, 98, 120]) [97, 98, 120] (fs_with_file "f" _) rfl).1 2
    (by decide) hmis hleast (by decide) (by decide)
  exact ⟨hmis, hleast, fs', h⟩

/-- With three sectors requested and the second open for append failing,
`create_test_file` returns -2. -/
theorem create_test_file_failure_codes_witness :
    3 < SIZE_MOD ∧ second_append_fails.open_a 1 = false ∧
    ∃ fs', create_test_file 2 second_append_fails 3 "f" fs_empty = some (-2, fs') := by
  obtain ⟨fs', h, _⟩ := ((create_test_file_failure_codes second_append_fails 3 "f" fs_empty
    (by decide)).2.1 rfl 1 (by decide)
    (by
      intro t ht
      interval_cases t
      exact ⟨rfl, by simp [second_append_fails, buf_length]⟩)).1 rfl 2 (by decide)
  exact ⟨by decide, rfl, fs', h⟩

end SD_Card
